import Mathlib

/- Verification of the adds-ai terminal client (src/adds_ai) against its
   specification.  The Python sources are shallowly embedded: text is
   modelled as `List Char`, dictionaries as association lists, the byte
   stream of the raw channel as `List Nat`, and the chunked LLM response as
   a list of tagged events.  All definitions are executable. -/

abbrev Str : Type := List Char

/-- Python `str.lower()` on the ASCII text used by the sources. -/
def lowerStr (s : Str) : Str := s.map Char.toLower

/-- Characters removed by Python `str.strip()`. -/
def pyIsSpace (c : Char) : Bool :=
  c = ' ' || c = '\t' || c = '\n' || c = '\r' || c = '\x0b' || c = '\x0c'

/-- Python `str.strip()`: drop whitespace from both ends. -/
def pyStrip (s : Str) : Str :=
  ((s.dropWhile pyIsSpace).reverse.dropWhile pyIsSpace).reverse

/-- Split a character list at every newline, keeping all fields
    (so a trailing newline yields a trailing empty field). -/
def splitNl : Str → List Str
  | [] => [[]]
  | c :: rest =>
    if c = '\n' then [] :: splitNl rest
    else
      match splitNl rest with
      | [] => [[c]]
      | l :: ls => (c :: l) :: ls

/-- Python `str.splitlines()` for newline-separated text: no trailing empty
    field after a final newline, and `[]` for the empty string. -/
def pySplitlines (s : Str) : List Str :=
  let parts := splitNl s
  if parts.getLast? = some [] then parts.dropLast else parts

/-- Total length of a list of character lists. -/
def lensum : List Str → Nat
  | [] => 0
  | s :: rest => s.length + lensum rest

/-- Maximal runs of whitespace / non-whitespace characters: the chunks that
    Python `textwrap` packs into lines.  (The hyphen splitting of
    `break_on_hyphens` is not modelled; no claim depends on it.) -/
def charRuns : Str → List Str
  | [] => []
  | c :: rest =>
    match charRuns rest with
    | [] => [[c]]
    | [] :: rs => [c] :: [] :: rs
    | (d :: r) :: rs =>
      if pyIsSpace c = pyIsSpace d then (c :: d :: r) :: rs
      else [c] :: (d :: r) :: rs

/-- Greedy line packing of Python `textwrap.wrap` with
    `replace_whitespace=False, drop_whitespace=False, break_long_words=True`:
    chunks accumulate into the current line while they fit in `width`; a
    chunk that cannot fit and is itself wider than `width` is broken to fill
    the remaining space of the current line; otherwise the line is closed.
    The program always calls this with `width = cols ≥ 1` (Python raises on
    `width ≤ 0`); the `width = 0` branch mirrors `space_left = 1`. -/
def packChunks (width : Nat) (cur : Str) : List Str → List Str
  | [] => if cur = [] then [] else [cur]
  | ch :: rest =>
    if cur.length + ch.length ≤ width then packChunks width (cur ++ ch) rest
    else if ch.length ≤ width then cur :: packChunks width [] (ch :: rest)
    else if width = 0 then
      (cur ++ ch.take 1) :: packChunks width [] (ch.drop 1 :: rest)
    else if cur.length < width then
      (cur ++ ch.take (width - cur.length)) ::
        packChunks width [] (ch.drop (width - cur.length) :: rest)
    else cur :: packChunks width [] (ch :: rest)
termination_by chunks => 2 * lensum chunks + 2 * chunks.length + cur.length
decreasing_by
  · simp [lensum]; omega
  · simp [lensum]; omega
  · simp [lensum]; omega
  · simp [lensum]; omega
  · simp [lensum]; omega

/-- Python `textwrap.wrap(para, width, replace_whitespace=False,
    drop_whitespace=False)` on a single paragraph. -/
def textwrapWrap (para : Str) (width : Nat) : List Str :=
  packChunks width [] (charRuns para)

/-- The module-level `wrap` of app.py: per paragraph of `splitlines() or
    [""]`, an empty paragraph stays one empty line, otherwise
    `textwrap.wrap(...) or [""]`. -/
def wrap (text : Str) (width : Nat) : List Str :=
  let paras := pySplitlines text
  (if paras = [] then [[]] else paras).flatMap (fun para =>
    if para = [] then [[]]
    else
      match textwrapWrap para width with
      | [] => [[]]
      | ls => ls)

/-- UI.add_block: wrap `pfx ++ text` to `cols`, truncate each emitted line to
    `cols`, append them to the transcript, then append one blank separator
    line. -/
def addBlock (cols : Nat) (lines : List Str) (pfx text : Str) : List Str :=
  lines ++ (wrap (pfx ++ text) cols).map (fun ln => ln.take cols) ++ [[]]

/-- A transcript of `n` literal blank lines (`n` newline characters). -/
def blankLinesStr (n : Nat) : Str := List.replicate n '\n'

/- ---------- Screen model: scrolling and the viewport ---------- -/

inductive ScrollEv where
  | up
  | down
deriving DecidableEq

/-- One ArrowUp/ArrowDown scroll event of the main loop: Up does
    `min (offset+1) (max (len(lines)-height) 0)`, Down does
    `max (offset-1) 0`.  With `Nat`, truncated subtraction is exactly
    Python's `max (a - b) 0`. -/
def scrollStep (nLines height : Nat) (off : Nat) : ScrollEv → Nat
  | ScrollEv.up => min (off + 1) (nLines - height)
  | ScrollEv.down => off - 1

/-- UI._clamp_scroll: pull the offset back to `max (len(lines)-height) 0`
    when it exceeds it. -/
def clampScroll (nLines height off : Nat) : Nat :=
  if off > nLines - height then nLines - height else off

/-- UI._view_slice: clamp first, then slice
    `lines[len-height-offset : len-height-offset+height]`.  Returns the
    clamped offset (the mutation of `scroll_offset`) with the slice. -/
def viewSlice (lines : List Str) (height off : Nat) : Nat × List Str :=
  let off' := clampScroll lines.length height off
  ((off', (lines.drop (lines.length - height - off')).take height))

/- ---------- History ledger ---------- -/

structure HistoryEntry where
  role : Str
  content : Str
deriving DecidableEq

/-- The while-loop of UI.add_to_history: pop the oldest entry while the
    ledger is over the cap. -/
def trimHist (cap : Nat) : List HistoryEntry → List HistoryEntry
  | [] => []
  | e :: rest => if cap < rest.length + 1 then trimHist cap rest else e :: rest

/-- UI.add_to_history: append, then trim from the front to the cap. -/
def addToHistory (h : List HistoryEntry) (role content : Str) (cap : Nat) :
    List HistoryEntry :=
  trimHist cap (h ++ [{ role := role, content := content }])

/- ---------- Retrieval (retrieval.py) ---------- -/

def MAX_MATCHES : Nat := 3

def MAX_CHARS : Nat := 800

/-- Lexicographic order on character lists by code point, as Python compares
    strings. -/
def lexLe : Str → Str → Bool
  | [], _ => true
  | _ :: _, [] => false
  | a :: as, b :: bs => if a = b then lexLe as bs else decide (a < b)

/-- Stable insertion into an ascending list: an element is placed before the
    first element it compares `le` to, so earlier elements stay before equal
    later ones. -/
def insertSorted (le : Str × Str → Str × Str → Bool) (x : Str × Str) :
    List (Str × Str) → List (Str × Str)
  | [] => [x]
  | y :: ys => if le x y then x :: y :: ys else y :: insertSorted le x ys

/-- Stable sort, modelling Python's `list.sort(key=...)`. -/
def sortStable (le : Str × Str → Str × Str → Bool) :
    List (Str × Str) → List (Str × Str)
  | [] => []
  | x :: xs => insertSorted le x (sortStable le xs)

/-- The sort key of find_matches: `(-len(key), key.lower())` ascending. -/
def sortKeyLe (a b : Str × Str) : Bool :=
  if a.1.length = b.1.length then lexLe (lowerStr a.1) (lowerStr b.1)
  else decide (b.1.length < a.1.length)

/-- find_matches: keys whose lowercase form occurs in the lowercase message,
    sorted longest-key first then alphabetically, capped at MAX_MATCHES. -/
def findMatches (kb : List (Str × Str)) (text : Str) : List (Str × Str) :=
  if kb.isEmpty || text.isEmpty then []
  else
    let lowered := lowerStr text
    let ms := kb.filter (fun kv => decide (lowerStr kv.1 <:+: lowered))
    (sortStable sortKeyLe ms).take MAX_MATCHES

/-- The accumulation loop of format_context: add `- key: blurb` lines while
    the running total stays within MAX_CHARS (the total is bumped before the
    check, exactly as in the source). -/
def ctxLines (total : Nat) : List (Str × Str) → List Str
  | [] => []
  | (k, b) :: rest =>
    let entry := "- ".data ++ k ++ ": ".data ++ b
    let total' := total + entry.length
    if MAX_CHARS < total' then [] else entry :: ctxLines total' rest

/-- format_context: a `[Retrieved context]` header followed by the entry
    lines, newline-joined; empty for no matches. -/
def formatContext (entries : List (Str × Str)) : Str :=
  if entries.isEmpty then []
  else List.intercalate ['\n'] ("[Retrieved context]".data :: ctxLines 0 entries)

/- ---------- Prompt presets (prompts.py) ---------- -/

def defaultKey : Str := "default".data

/-- Python dict lookup on an association list (presets have unique keys). -/
def dictGet : List (Str × Str) → Str → Option Str
  | [], _ => none
  | (k, v) :: rest, key => if k = key then some v else dictGet rest key

/-- select_preset: `chosen = name or env or "default"`, then fall back to
    `"default"` (if present) or the first key when `chosen` is unknown.
    `name`/`env` model the argument and the ADDS_PRESET environment variable;
    `[]` stands for both Python `None` and the empty string (both falsy). -/
def selectPreset (presets : List (Str × Str)) (name env : Str) : Str × Str :=
  match presets with
  | [] => ([], [])
  | p0 :: _ =>
    let chosen1 := if name ≠ [] then name else if env ≠ [] then env else defaultKey
    let chosen2 :=
      if (dictGet presets chosen1).isNone then
        if (dictGet presets defaultKey).isSome then defaultKey else p0.1
      else chosen1
    (chosen2, (dictGet presets chosen2).getD [])

/- ---------- Status-line command hint (UI.render) ---------- -/

/-- The known command names of the UI. -/
def commandsList : List Str :=
  ["/help".data, "/new".data, "/clear".data, "/quit".data, "/preset".data,
   "/model".data, "/ctx".data, "/tutorial".data, "/search".data]

/-- The command-suggestion component of the status line in UI.render: when
    the input buffer starts with `/`, the commands extending it, joined by
    two spaces and capped at 4 — unless there are none or the buffer is
    itself a known command. -/
def cmdHint (commands : List Str) (inputBuf : Str) : Str :=
  if inputBuf.head? = some '/' then
    let ms := commands.filter (fun c => decide (inputBuf <+: c))
    if ms ≠ [] ∧ inputBuf ∉ commands then
      List.intercalate "  ".data (ms.take 4)
    else []
  else []

/- ---------- Input decoder (the byte dispatch of main) ---------- -/

inductive Key where
  | enter
  | backspace
  | ctrlU
  | arrowUp
  | arrowDown
  | char (c : Nat)
deriving DecidableEq

/-- The byte dispatch of the main loop, as a pure decoder over the byte
    stream.  A byte is available to one of the bounded waits exactly when
    the remaining list is nonempty (the claims concern bytes that did
    arrive).  Only key events are extracted; their effect on the screen
    model is modelled separately.  After a lone ESC, a follow-on byte other
    than `[`/`O` is read and dropped (both branches of the source's letter
    test fall through to `continue`), as is the byte after a stray `[`. -/
def decode : List Nat → List Key
  | [] => []
  | c :: rest =>
    if c = 10 ∨ c = 13 then Key.enter :: decode rest
    else if c = 8 ∨ c = 127 then Key.backspace :: decode rest
    else if c = 27 then
      match rest with
      | [] => []
      | b :: rest2 =>
        if b = 91 ∨ b = 79 then
          match rest2 with
          | [] => []
          | e :: rest3 =>
            if e = 65 then Key.arrowUp :: decode rest3
            else if e = 66 then Key.arrowDown :: decode rest3
            else decode rest3
        else decode rest2
    else if c = 91 then
      match rest with
      | [] => []
      | _ :: rest2 => decode rest2
    else if c = 21 then Key.ctrlU :: decode rest
    else if c < 32 then decode rest
    else if c ≤ 126 then Key.char c :: decode rest
    else decode rest

/- ---------- Streaming session controller (do_stream) ---------- -/

/-- The fixed recency/lookup trigger words of do_stream. -/
def webTriggers : List Str :=
  ["news".data, "headline".data, "latest".data, "current".data, "today".data,
   "this week".data, "breaking".data, "update".data, "search".data,
   "find".data, "lookup".data]

/-- The `needs_web` computation: the explicit flag, or any trigger word
    occurring in the lowercased message. -/
def needsWeb (webSearch : Bool) (userMsg : Str) : Bool :=
  webSearch || webTriggers.any (fun t => decide (t <:+: lowerStr userMsg))

def webSearchInstr : Str :=
  "Use web search to answer this request and cite sources.".data

/-- The system_block_parts list of do_stream, in source order.  Note the
    web-search instruction is appended under the `web_search` parameter (the
    explicit flag), not under `needs_web`. -/
def systemBlockParts (sysPrompt presetText : Str) (persSent : Bool)
    (persNote : Str) (webSearch : Bool) (retrievalCtx : Str) : List Str :=
  [sysPrompt, presetText]
    ++ (if persSent = false ∧ persNote ≠ [] then [persNote] else [])
    ++ (if webSearch then [webSearchInstr] else [])
    ++ (if retrievalCtx ≠ [] then [retrievalCtx] else [])

/-- `system_block = "\n\n".join([p for p in parts if p]).strip()`. -/
def systemBlock (sysPrompt presetText : Str) (persSent : Bool)
    (persNote : Str) (webSearch : Bool) (retrievalCtx : Str) : Str :=
  pyStrip (List.intercalate ['\n', '\n']
    ((systemBlockParts sysPrompt presetText persSent persNote webSearch
        retrievalCtx).filter (fun p => !p.isEmpty)))

/-- The distinguished final event of the stream (StreamResult).  Only the
    fields consumed by do_stream's transcript handling are modelled; the
    floating-point cost and the token counters merge into session accounting
    and decide no transcript claim. -/
structure StreamResultM where
  citations : List Str
deriving DecidableEq

/-- One event of the chunked response: a text delta (yielded `str`) or the
    final StreamResult. -/
inductive StreamEvent where
  | textDelta (s : Str)
  | completed (r : StreamResultM)
deriving DecidableEq

/-- The text chunks of an event list, in order. -/
def deltaTexts : List StreamEvent → List Str
  | [] => []
  | StreamEvent.textDelta s :: rest => s :: deltaTexts rest
  | StreamEvent.completed _ :: rest => deltaTexts rest

def aiPrefix : Str := "AI: ".data

def interruptedMarker : Str := " [interrupted]".data

/-- The mutable state do_stream works on: the transcript, the `out`
    accumulator, the interrupted flag, the captured final result, the status
    line, and the history ledger. -/
structure StreamSt where
  lines : List Str
  out : List Str
  interrupted : Bool
  finalResult : Option StreamResultM
  status : Str
  history : List HistoryEntry
  responseText : Str
deriving DecidableEq

/-- The chunk-consumption loop of do_stream.  `k` is `ai_block_start`.
    `pending i` is the byte the non-blocking poll at the i-th chunk boundary
    returns (`none`: nothing readable); byte 27 interrupts, any other byte is
    swallowed.  `refresh i` tells whether the throttle clock has run past
    `refresh_ms` at the i-th delta, in which case the in-progress block is
    replaced in place (`del lines[k:]` then add_block). -/
def streamLoop (cols k : Nat) (pending : Nat → Option Nat)
    (refresh : Nat → Bool) : Nat → StreamSt → List StreamEvent → StreamSt
  | _, st, [] => st
  | i, st, e :: rest =>
    if pending i = some 27 then
      { st with interrupted := true, out := st.out ++ [interruptedMarker] }
    else
      match e with
      | StreamEvent.textDelta s =>
        let out' := st.out ++ [s]
        if refresh i then
          streamLoop cols k pending refresh (i + 1)
            { st with out := out',
                      lines := addBlock cols (st.lines.take k) aiPrefix
                                 out'.flatten,
                      status := "Streaming… (ESC to stop)".data } rest
        else streamLoop cols k pending refresh (i + 1) { st with out := out' } rest
      | StreamEvent.completed r =>
        streamLoop cols k pending refresh (i + 1)
          { st with finalResult := some r } rest

/-- do_stream from the point the stream is opened: record `ai_block_start`,
    run the consumption loop, then do the final replace-in-place with the
    stripped text, append the citation line (at most 3), append the
    assistant turn to the ledger, and set the status
    (`Idle | [stopped |] <ms>ms`).  The user turn is appended to the ledger
    before the loop, as in the source; retrieval-context and request
    construction are modelled by `findMatches`/`formatContext`/`systemBlock`,
    and session token/cost accounting (floating point) is out of scope. -/
def doStream (cols cap : Nat) (pending : Nat → Option Nat)
    (refresh : Nat → Bool) (elapsedMs : Nat) (userMsg : Str)
    (st0 : StreamSt) (events : List StreamEvent) : StreamSt :=
  let st1 : StreamSt :=
    { st0 with status := "Thinking…".data,
               history := addToHistory st0.history "user".data userMsg cap,
               out := [], interrupted := false, finalResult := none }
  let k := st1.lines.length
  let st2 := streamLoop cols k pending refresh 0 st1 events
  let responseText := pyStrip st2.out.flatten
  let lines1 := addBlock cols (st2.lines.take k) aiPrefix responseText
  let lines2 :=
    match st2.finalResult with
    | some r =>
      if r.citations.isEmpty then lines1
      else addBlock cols lines1 "SRC: ".data
             (List.intercalate " | ".data (r.citations.take 3))
    | none => lines1
  let statusParts :=
    if st2.interrupted then
      ["Idle".data, "stopped".data, (Nat.repr elapsedMs).data ++ "ms".data]
    else ["Idle".data, (Nat.repr elapsedMs).data ++ "ms".data]
  { lines := lines2,
    out := st2.out,
    interrupted := st2.interrupted,
    finalResult := st2.finalResult,
    status := List.intercalate " | ".data statusParts,
    history := addToHistory st2.history "assistant".data responseText cap,
    responseText := responseText }

/- ================================ Theorems ================================ -/

/-- C1: for every sequence of ArrowUp/ArrowDown scroll events, the scroll
    offset stays within `[0, max (len(transcript) - viewport_height) 0]`
    (the lower bound is automatic for `Nat`, matching Python's
    `max (· - 1) 0`), and `_view_slice` clamps the offset into this range
    before computing the rendered slice: the returned offset is the clamped
    one, it is within the bound, and the slice is taken at the clamped
    offset. -/
theorem scroll_offset_stays_clamped
    (nL h off0 : Nat) (evs : List ScrollEv) (lines : List Str) (off : Nat)
    (h0 : off0 ≤ nL - h) :
    evs.foldl (scrollStep nL h) off0 ≤ nL - h ∧
    (viewSlice lines h off).1 = clampScroll lines.length h off ∧
    clampScroll lines.length h off ≤ lines.length - h ∧
    (viewSlice lines h off).2 =
      (lines.drop (lines.length - h - clampScroll lines.length h off)).take h := by
  refine ⟨?_, rfl, ?_, rfl⟩
  · induction evs generalizing off0 with
    | nil => exact h0
    | cons e rest ih =>
      cases e with
      | up =>
        refine ih _ ?_
        simp only [scrollStep]
        omega
      | down =>
        refine ih _ ?_
        simp only [scrollStep]
        omega
  · simp only [clampScroll]
    split <;> omega

/-- Witness for C1 at a concrete transcript and event sequence. -/
theorem scroll_offset_stays_clamped_witness :
    [ScrollEv.up, ScrollEv.up, ScrollEv.down].foldl (scrollStep 10 4) 0 ≤ 10 - 4 ∧
    (viewSlice ["ab".data, "cd".data] 4 99).1 = clampScroll 2 4 99 ∧
    clampScroll 2 4 99 ≤ 2 - 4 ∧
    (viewSlice ["ab".data, "cd".data] 4 99).2 =
      (["ab".data, "cd".data].drop (2 - 4 - clampScroll 2 4 99)).take 4 :=
  scroll_offset_stays_clamped 10 4 0 [ScrollEv.up, ScrollEv.up, ScrollEv.down]
    ["ab".data, "cd".data] 99 (by decide)

/-- trimHist drops exactly the oldest entries down to the cap. -/
theorem trimHist_eq_drop (cap : Nat) (h : List HistoryEntry) :
    trimHist cap h = h.drop (h.length - cap) := by
  induction h with
  | nil => simp [trimHist]
  | cons e rest ih =>
    simp only [trimHist]
    split
    · rw [ih]
      have : rest.length + 1 - cap = (rest.length - cap) + 1 := by omega
      simp [List.length_cons, this]
    · have : rest.length + 1 - cap = 0 := by omega
      simp [List.length_cons, this]

/-- C3: starting from any ledger within the cap, after any sequence of
    appends the ledger never exceeds the cap, and it consists of exactly the
    most recent entries in order (the oldest were dropped, FIFO, compared by
    content): the result is the tail of `h0 ++ es` that fits the cap. -/
theorem history_cap_fifo (cap : Nat) (h0 es : List HistoryEntry)
    (hlen : h0.length ≤ cap) :
    (es.foldl (fun h e => addToHistory h e.role e.content cap) h0).length ≤ cap ∧
    es.foldl (fun h e => addToHistory h e.role e.content cap) h0 =
      (h0 ++ es).drop (h0.length + es.length - cap) := by
  induction es generalizing h0 with
  | nil =>
    refine ⟨by simpa using hlen, ?_⟩
    have h2 : h0.length - cap = 0 := by omega
    simp [h2]
  | cons e rest ih =>
    have hstep : addToHistory h0 e.role e.content cap =
        (h0 ++ [e]).drop (h0.length + 1 - cap) := by
      rw [addToHistory, trimHist_eq_drop]
      simp
    have hlen1 : (addToHistory h0 e.role e.content cap).length ≤ cap := by
      rw [hstep]
      simp only [List.length_drop, List.length_append, List.length_cons,
        List.length_nil]
      omega
    obtain ⟨ihl, ihe⟩ := ih (addToHistory h0 e.role e.content cap) hlen1
    constructor
    · rw [List.foldl_cons]
      exact ihl
    · simp only [List.foldl_cons]
      rw [ihe, hstep]
      have hL : h0.length + 1 - cap ≤ (h0 ++ [e]).length := by
        simp only [List.length_append, List.length_cons, List.length_nil]
        omega
      rw [List.length_drop, ← List.drop_append_of_le_length hL, List.drop_drop]
      have hcat : (h0 ++ [e]) ++ rest = h0 ++ e :: rest := by simp
      rw [hcat]
      congr 1
      simp only [List.length_append, List.length_cons, List.length_nil]
      omega

/-- Witness for C3: three appends under cap 2 keep exactly the two most
    recent entries. -/
theorem history_cap_fifo_witness :
    ([HistoryEntry.mk "user".data "a".data,
      HistoryEntry.mk "assistant".data "b".data,
      HistoryEntry.mk "user".data "c".data].foldl
        (fun h e => addToHistory h e.role e.content 2) []).length ≤ 2 ∧
    [HistoryEntry.mk "user".data "a".data,
     HistoryEntry.mk "assistant".data "b".data,
     HistoryEntry.mk "user".data "c".data].foldl
        (fun h e => addToHistory h e.role e.content 2) [] =
      (([] : List HistoryEntry) ++
        [HistoryEntry.mk "user".data "a".data,
         HistoryEntry.mk "assistant".data "b".data,
         HistoryEntry.mk "user".data "c".data]).drop
        (List.length ([] : List HistoryEntry) +
          List.length [HistoryEntry.mk "user".data "a".data,
            HistoryEntry.mk "assistant".data "b".data,
            HistoryEntry.mk "user".data "c".data] - 2) :=
  history_cap_fifo 2 []
    [HistoryEntry.mk "user".data "a".data,
     HistoryEntry.mk "assistant".data "b".data,
     HistoryEntry.mk "user".data "c".data] (by decide)

/-- C8: with the knowledge base `{Widget: A small part.}` and the message
    "tell me about the widget", find_matches returns exactly the single
    match `Widget`, and the formatted context block contains the line
    `- Widget: A small part.`. -/
theorem retrieval_widget_scenario :
    findMatches [("Widget".data, "A small part.".data)]
        ("tell me about the widget".data) =
      [("Widget".data, "A small part.".data)] ∧
    ("- Widget: A small part.".data) ∈
      splitNl (formatContext (findMatches [("Widget".data, "A small part.".data)]
        ("tell me about the widget".data))) := by
  decide

/-- C9: with the UI's command list (which includes /model and /ctx), typing
    "/mo" hints exactly "/model", and an input buffer equal to any known
    command yields no command hint. -/
theorem command_hint_matching :
    cmdHint commandsList ("/mo".data) = "/model".data ∧
    ∀ c ∈ commandsList, cmdHint commandsList c = [] := by
  decide

/-- Witness for C9 at the exact command "/model". -/
theorem command_hint_matching_witness :
    cmdHint commandsList ("/model".data) = [] :=
  command_hint_matching.2 ("/model".data) (by decide)

/-- splitNl on n newlines gives n+1 empty fields. -/
theorem splitNl_replicate_nl (n : Nat) :
    splitNl (List.replicate n '\n') = List.replicate (n + 1) [] := by
  induction n with
  | zero => simp [splitNl]
  | succ m ih => simp [List.replicate_succ, splitNl, ih]

/-- Python splitlines of n literal blank lines is n empty lines. -/
theorem pySplitlines_blank (n : Nat) :
    pySplitlines (blankLinesStr n) = List.replicate n [] := by
  simp only [pySplitlines, blankLinesStr, splitNl_replicate_nl]
  rw [List.replicate_succ']
  simp [List.getLast?_concat, List.dropLast_concat]

/-- C4: add_block appends the wrapped lines — each of length at most `cols`
    because each is right-truncated to `cols` — followed by exactly one
    blank separator line; and an input of n literal blank lines wraps to
    exactly n blank output lines (blank lines are never collapsed). -/
theorem addBlock_bounded_and_blank_preserving
    (cols : Nat) (lines : List Str) (pfx text : Str) (n : Nat) :
    addBlock cols lines pfx text =
      lines ++ (wrap (pfx ++ text) cols).map (fun ln => ln.take cols) ++ [[]] ∧
    (∀ ln ∈ (wrap (pfx ++ text) cols).map (fun ln => ln.take cols),
      ln.length ≤ cols) ∧
    (1 ≤ n → wrap (blankLinesStr n) cols = List.replicate n []) := by
  refine ⟨rfl, ?_, ?_⟩
  · intro ln hln
    obtain ⟨l, hl, rfl⟩ := List.mem_map.mp hln
    simp [List.length_take]
  · intro hn
    simp only [wrap, pySplitlines_blank n]
    have hne : (List.replicate n ([] : Str)) ≠ [] := by
      cases n
      · omega
      · simp [List.replicate_succ]
    rw [if_neg hne]
    clear hn hne
    induction n with
    | zero => simp
    | succ m ih => simp [List.replicate_succ, ih]

/-- Witness for C4 at cols 5, empty prefix, and a text of 2 blank lines. -/
theorem addBlock_bounded_and_blank_preserving_witness :
    List.length ([] : Str) ≤ 5 ∧
    wrap (blankLinesStr 2) 5 = List.replicate 2 [] :=
  ⟨(addBlock_bounded_and_blank_preserving 5 [] [] (blankLinesStr 2) 2).2.1
      ([] : Str) (by decide),
   (addBlock_bounded_and_blank_preserving 5 [] [] (blankLinesStr 2) 2).2.2
      (by decide)⟩

/-- C6 counterexample: with presets {default, other} and the ADDS_PRESET
    environment variable set to "other", selecting with an empty name yields
    the preset "other" — not the claimed fallback to "default". -/
theorem preset_empty_name_env_selected :
    selectPreset [("default".data, "D".data), ("other".data, "O".data)]
        [] ("other".data) = ("other".data, "O".data) ∧
    ("other".data, "O".data).1 ≠ defaultKey := by
  decide

/-- C6 amended: when the name is empty or unknown — and, for an empty name,
    the ADDS_PRESET environment value is also empty or unknown — selection
    falls back to the preset named "default" when present, else to the
    first available preset. -/
theorem preset_fallback_default_then_first
    (p0 : Str × Str) (ps : List (Str × Str)) (name env : Str)
    (hname : name = [] ∨ dictGet (p0 :: ps) name = none)
    (henv : name = [] → env = [] ∨ dictGet (p0 :: ps) env = none) :
    selectPreset (p0 :: ps) name env =
      match dictGet (p0 :: ps) defaultKey with
      | some v => (defaultKey, v)
      | none => (p0.1, p0.2) := by
  have key : (if name ≠ [] then name else if env ≠ [] then env else defaultKey) =
      defaultKey ∨
      dictGet (p0 :: ps)
        (if name ≠ [] then name else if env ≠ [] then env else defaultKey) =
        none := by
    by_cases hn : name = []
    · by_cases he : env = []
      · left
        simp [hn, he]
      · rcases henv hn with h | h
        · exact absurd h he
        · right
          simpa [hn, he] using h
    · rcases hname with h | h
      · exact absurd h hn
      · right
        simpa [hn] using h
  simp only [selectPreset]
  rcases key with hk | hk
  · rw [hk]
    cases hd : dictGet (p0 :: ps) defaultKey with
    | some v => simp [hd]
    | none => simp [hd, dictGet]
  · simp only [hk, Option.isNone_none, if_true]
    cases hd : dictGet (p0 :: ps) defaultKey with
    | some v => simp [hd]
    | none => simp [hd, dictGet]

/-- Witness for the amended C6: unknown name, empty environment value,
    "default" present but not first: falls back to "default". -/
theorem preset_fallback_default_then_first_witness :
    selectPreset [("a".data, "A".data), ("default".data, "D".data)]
        ("zzz".data) [] = (defaultKey, "D".data) :=
  (preset_fallback_default_then_first ("a".data, "A".data)
      [("default".data, "D".data)] ("zzz".data) [] (by decide)
      (by decide)).trans (by decide)

/-- C7 counterexample: after a lone ESC, the following byte 120 ('x') is
    consumed silently — no Character event is produced — whereas
    re-dispatching it through normal decoding would produce one. -/
theorem esc_followon_byte_consumed :
    decode [27, 120] = [] ∧ decode [120] = [Key.char 120] := by
  decide

/-- C7 amended: when the byte following a lone ESC is neither `[` (91) nor
    `O` (79), both the ESC and that byte are discarded — the byte is
    consumed, not re-dispatched — and decoding continues in the Normal
    state on the remaining bytes. -/
theorem esc_followon_byte_discarded (b : Nat) (rest : List Nat)
    (hb : ¬(b = 91 ∨ b = 79)) :
    decode (27 :: b :: rest) = decode rest := by
  rw [decode.eq_def]
  simp [hb]

/-- Witness for the amended C7: ESC, 'x', 'A' decodes as just 'A'. -/
theorem esc_followon_byte_discarded_witness :
    decode [27, 120, 65] = decode [65] :=
  esc_followon_byte_discarded 120 [65] (by decide)

/-- A member of a list of parts occurs contiguously in their joined form. -/
theorem isInfix_intercalate (sep : Str) (l : List Str) (x : Str) (hx : x ∈ l) :
    x <:+: List.intercalate sep l := by
  induction l with
  | nil => cases hx
  | cons a rest ih =>
    cases rest with
    | nil =>
      rcases List.mem_cons.mp hx with h | h
      · subst h
        simp [List.intercalate]
      · cases h
    | cons b rest2 =>
      have hic : List.intercalate sep (a :: b :: rest2) =
          a ++ sep ++ List.intercalate sep (b :: rest2) := by
        simp [List.intercalate, List.intersperse]
      rcases List.mem_cons.mp hx with h | h
      · subst h
        rw [hic]
        exact ⟨[], sep ++ List.intercalate sep (b :: rest2), by simp⟩
      · obtain ⟨u, v, huv⟩ := ih h
        rw [hic, ← huv]
        exact ⟨a ++ sep ++ u, v, by simp⟩

/-- An occurrence of a block starting with a non-dropped character survives
    dropWhile. -/
theorem isInfix_dropWhile_of_head (p : Char → Bool) (x s : Str) (c : Char)
    (hx : x.head? = some c) (hc : p c = false) (h : x <:+: s) :
    x <:+: s.dropWhile p := by
  obtain ⟨u, v, huv⟩ := h
  subst huv
  induction u with
  | nil =>
    cases x with
    | nil => cases hx
    | cons c0 x' =>
      have : c0 = c := by simpa using hx
      subst this
      simp only [List.nil_append, List.cons_append, List.dropWhile_cons, hc]
      exact ⟨[], v, by simp⟩
  | cons d u' ih =>
    by_cases hd : p d = true
    · simpa [List.dropWhile_cons, hd] using ih
    · simp only [List.cons_append, List.dropWhile_cons, hd]
      exact ⟨d :: u', v, by simp⟩

/-- An occurrence of a block with non-whitespace first and last characters
    survives Python strip. -/
theorem isInfix_pyStrip (x s : Str) (c₁ c₂ : Char)
    (h1 : x.head? = some c₁) (hc1 : pyIsSpace c₁ = false)
    (h2 : x.getLast? = some c₂) (hc2 : pyIsSpace c₂ = false)
    (h : x <:+: s) : x <:+: pyStrip s := by
  have step1 : x <:+: s.dropWhile pyIsSpace :=
    isInfix_dropWhile_of_head pyIsSpace x s c₁ h1 hc1 h
  have step2 : x.reverse <:+: (s.dropWhile pyIsSpace).reverse :=
    List.reverse_infix.mpr step1
  have hrev : x.reverse.head? = some c₂ := by
    rw [List.head?_reverse]
    exact h2
  have step3 : x.reverse <:+: ((s.dropWhile pyIsSpace).reverse.dropWhile pyIsSpace) :=
    isInfix_dropWhile_of_head pyIsSpace x.reverse _ c₂ hrev hc2 step2
  have := List.reverse_infix.mpr step3
  simpa [pyStrip] using this

/-- C5 counterexample: the message "any news today?" auto-enables search
    mode (`needs_web` is true via the trigger words), yet with
    `web_search=False` the outbound system block does not contain the
    web-search instruction — the source appends it under the explicit
    `web_search` flag, not under `needs_web`. -/
theorem web_search_instruction_missing_on_auto :
    needsWeb false ("any news today?".data) = true ∧
    ¬(webSearchInstr <:+:
        systemBlock ("You are a helpful assistant.".data) [] true [] false []) := by
  decide

/-- C5 amended: the outbound system block contains the web-search
    instruction exactly for requests whose search mode was explicitly
    requested (`web_search=True`, as by /search); a trigger word in the
    message still auto-enables search mode (`needs_web`) for the transport
    tool, but does not add the instruction to the system block. -/
theorem web_search_instruction_explicit (sysPrompt presetText : Str)
    (persSent : Bool) (persNote retrievalCtx : Str) (ws : Bool)
    (userMsg t : Str) (ht : t ∈ webTriggers) (hsub : t <:+: lowerStr userMsg) :
    webSearchInstr <:+:
      systemBlock sysPrompt presetText persSent persNote true retrievalCtx ∧
    needsWeb ws userMsg = true := by
  constructor
  · simp only [systemBlock]
    refine isInfix_pyStrip _ _ 'U' '.' (by decide) (by decide) (by decide)
      (by decide) ?_
    refine isInfix_intercalate _ _ _ ?_
    refine List.mem_filter.mpr ⟨?_, by decide⟩
    simp [systemBlockParts]
  · simp only [needsWeb, Bool.or_eq_true]
    right
    rw [List.any_eq_true]
    exact ⟨t, ht, decide_eq_true hsub⟩

/-- Witness for the amended C5 with an explicit search request and the
    trigger word "latest" in the message. -/
theorem web_search_instruction_explicit_witness :
    (webSearchInstr <:+: systemBlock ("S".data) [] true [] true []) ∧
    needsWeb false ("latest scores".data) = true :=
  web_search_instruction_explicit ("S".data) [] true [] [] false
    ("latest scores".data) ("latest".data) (by decide) (by decide)

/-- If the non-blocking poll returns ESC at chunk boundary i₀ and at no
    earlier boundary, the consumption loop stops there: the accumulator then
    holds exactly the text chunks of the first i₀ events followed by the
    interrupted marker, and the interrupted flag is set. -/
theorem streamLoop_interrupt (cols k : Nat) (pending : Nat → Option Nat)
    (refresh : Nat → Bool) (events : List StreamEvent) :
    ∀ (i i₀ : Nat) (st : StreamSt), i₀ < events.length →
      pending (i + i₀) = some 27 →
      (∀ j, j < i₀ → pending (i + j) ≠ some 27) →
      (streamLoop cols k pending refresh i st events).out =
        st.out ++ deltaTexts (events.take i₀) ++ [interruptedMarker] ∧
      (streamLoop cols k pending refresh i st events).interrupted = true := by
  induction events with
  | nil =>
    intro i i₀ st hlt
    exact absurd hlt (by simp)
  | cons e rest ih =>
    intro i i₀ st hlt hesc hfirst
    cases i₀ with
    | zero =>
      have hp : pending i = some 27 := by simpa using hesc
      simp [streamLoop, hp, deltaTexts]
    | succ m =>
      have hp : ¬ pending i = some 27 := by
        have := hfirst 0 (Nat.succ_pos m)
        simpa using this
      have hesc2 : pending (i + 1 + m) = some 27 := by
        have he : i + 1 + m = i + (m + 1) := by omega
        rw [he]
        exact hesc
      have hfirst2 : ∀ j, j < m → pending (i + 1 + j) ≠ some 27 := by
        intro j hj
        have hh := hfirst (j + 1) (by omega)
        have he : i + 1 + j = i + (j + 1) := by omega
        rw [he]
        exact hh
      have hlt2 : m < rest.length := by simpa using hlt
      cases e with
      | textDelta s =>
        by_cases hr : refresh i = true
        · have hstep : streamLoop cols k pending refresh i st
              (StreamEvent.textDelta s :: rest) =
            streamLoop cols k pending refresh (i + 1)
              { lines := addBlock cols (st.lines.take k) aiPrefix
                           (st.out.flatten ++ s),
                out := st.out ++ [s],
                interrupted := st.interrupted,
                finalResult := st.finalResult,
                status := "Streaming… (ESC to stop)".data,
                history := st.history,
                responseText := st.responseText } rest := by
            simp [streamLoop, hp, hr]
          obtain ⟨h1, h2⟩ := ih (i + 1) m
            { lines := addBlock cols (st.lines.take k) aiPrefix
                         (st.out.flatten ++ s),
              out := st.out ++ [s],
              interrupted := st.interrupted,
              finalResult := st.finalResult,
              status := "Streaming… (ESC to stop)".data,
              history := st.history,
              responseText := st.responseText } hlt2 hesc2 hfirst2
          constructor
          · rw [hstep, h1]
            simp [deltaTexts]
          · rw [hstep]
            exact h2
        · have hstep : streamLoop cols k pending refresh i st
              (StreamEvent.textDelta s :: rest) =
            streamLoop cols k pending refresh (i + 1)
              { lines := st.lines,
                out := st.out ++ [s],
                interrupted := st.interrupted,
                finalResult := st.finalResult,
                status := st.status,
                history := st.history,
                responseText := st.responseText } rest := by
            simp [streamLoop, hp, hr]
          obtain ⟨h1, h2⟩ := ih (i + 1) m
            { lines := st.lines,
              out := st.out ++ [s],
              interrupted := st.interrupted,
              finalResult := st.finalResult,
              status := st.status,
              history := st.history,
              responseText := st.responseText } hlt2 hesc2 hfirst2
          constructor
          · rw [hstep, h1]
            simp [deltaTexts]
          · rw [hstep]
            exact h2
      | completed r =>
        have hstep : streamLoop cols k pending refresh i st
            (StreamEvent.completed r :: rest) =
          streamLoop cols k pending refresh (i + 1)
            { lines := st.lines,
              out := st.out,
              interrupted := st.interrupted,
              finalResult := some r,
              status := st.status,
              history := st.history,
              responseText := st.responseText } rest := by
          simp [streamLoop, hp]
        obtain ⟨h1, h2⟩ := ih (i + 1) m
          { lines := st.lines,
            out := st.out,
            interrupted := st.interrupted,
            finalResult := some r,
            status := st.status,
            history := st.history,
            responseText := st.responseText } hlt2 hesc2 hfirst2
        constructor
        · rw [hstep, h1]
          simp [deltaTexts]
        · rw [hstep]
          exact h2

/-- C2: when a pending ESC is observed at a chunk boundary (and at no
    earlier boundary), do_stream stops consuming further chunks: the
    interrupted flag is set, the accumulator holds exactly the consumed
    prefix of text chunks plus the "[interrupted]" marker, the final
    transcript block text (response_text, the text rendered into the final
    replace-in-place AI block) is that concatenation after stripping, and
    the resulting status string includes "stopped". -/
theorem stream_interrupt_text_and_status (cols cap : Nat)
    (pending : Nat → Option Nat) (refresh : Nat → Bool) (elapsedMs : Nat)
    (userMsg : Str) (st0 : StreamSt) (events : List StreamEvent) (i₀ : Nat)
    (hlt : i₀ < events.length) (hesc : pending i₀ = some 27)
    (hfirst : ∀ j, j < i₀ → pending j ≠ some 27) :
    (doStream cols cap pending refresh elapsedMs userMsg st0 events).interrupted =
      true ∧
    (doStream cols cap pending refresh elapsedMs userMsg st0 events).out =
      deltaTexts (events.take i₀) ++ [interruptedMarker] ∧
    (doStream cols cap pending refresh elapsedMs userMsg st0 events).responseText =
      pyStrip ((deltaTexts (events.take i₀)).flatten ++ interruptedMarker) ∧
    ("stopped".data <:+:
      (doStream cols cap pending refresh elapsedMs userMsg st0 events).status) := by
  obtain ⟨hout, hint⟩ := streamLoop_interrupt cols
    ({ st0 with status := "Thinking…".data,
                history := addToHistory st0.history "user".data userMsg cap,
                out := [], interrupted := false,
                finalResult := none } : StreamSt).lines.length pending refresh
    events 0 i₀
    { st0 with status := "Thinking…".data,
               history := addToHistory st0.history "user".data userMsg cap,
               out := [], interrupted := false, finalResult := none }
    hlt (by simpa using hesc) (by intro j hj; simpa using hfirst j hj)
  refine ⟨?_, ?_, ?_, ?_⟩
  · simp only [doStream]
    exact hint
  · simp only [doStream]
    rw [hout]
    simp
  · simp only [doStream]
    rw [hout]
    simp [List.flatten_append]
  · simp only [doStream]
    rw [hint, if_pos rfl]
    exact isInfix_intercalate _ _ _ (by simp)

/-- Witness for C2: a stream of "Hel", "lo" and a final event, interrupted
    at the third chunk boundary. -/
theorem stream_interrupt_text_and_status_witness :
    (doStream 80 20 (fun i => if i = 2 then some 27 else none) (fun _ => false)
        5 ("hi".data) (StreamSt.mk [] [] false none [] [] [])
        [StreamEvent.textDelta "Hel".data, StreamEvent.textDelta "lo".data,
         StreamEvent.completed (StreamResultM.mk [])]).interrupted = true ∧
    (doStream 80 20 (fun i => if i = 2 then some 27 else none) (fun _ => false)
        5 ("hi".data) (StreamSt.mk [] [] false none [] [] [])
        [StreamEvent.textDelta "Hel".data, StreamEvent.textDelta "lo".data,
         StreamEvent.completed (StreamResultM.mk [])]).out =
      deltaTexts ([StreamEvent.textDelta "Hel".data,
        StreamEvent.textDelta "lo".data,
        StreamEvent.completed (StreamResultM.mk [])].take 2) ++
        [interruptedMarker] ∧
    (doStream 80 20 (fun i => if i = 2 then some 27 else none) (fun _ => false)
        5 ("hi".data) (StreamSt.mk [] [] false none [] [] [])
        [StreamEvent.textDelta "Hel".data, StreamEvent.textDelta "lo".data,
         StreamEvent.completed (StreamResultM.mk [])]).responseText =
      pyStrip ((deltaTexts ([StreamEvent.textDelta "Hel".data,
        StreamEvent.textDelta "lo".data,
        StreamEvent.completed (StreamResultM.mk [])].take 2)).flatten ++
        interruptedMarker) ∧
    ("stopped".data <:+:
      (doStream 80 20 (fun i => if i = 2 then some 27 else none) (fun _ => false)
        5 ("hi".data) (StreamSt.mk [] [] false none [] [] [])
        [StreamEvent.textDelta "Hel".data, StreamEvent.textDelta "lo".data,
         StreamEvent.completed (StreamResultM.mk [])]).status) :=
  stream_interrupt_text_and_status 80 20
    (fun i => if i = 2 then some 27 else none) (fun _ => false) 5 ("hi".data)
    (StreamSt.mk [] [] false none [] [] [])
    [StreamEvent.textDelta "Hel".data, StreamEvent.textDelta "lo".data,
     StreamEvent.completed (StreamResultM.mk [])] 2 (by decide) (by decide)
    (by decide)

/-- Every replace-in-place inside the consumption loop deletes and rewrites
    only lines at or after the recorded block start: the first
    `L0.length` transcript lines stay `L0` throughout. -/
theorem streamLoop_preserves_take (cols : Nat) (pending : Nat → Option Nat)
    (refresh : Nat → Bool) (L0 : List Str) (events : List StreamEvent) :
    ∀ (i : Nat) (st : StreamSt), st.lines.take L0.length = L0 →
      (streamLoop cols L0.length pending refresh i st events).lines.take
        L0.length = L0 := by
  induction events with
  | nil =>
    intro i st h
    exact h
  | cons e rest ih =>
    intro i st h
    by_cases hp : pending i = some 27
    · have hstep : streamLoop cols L0.length pending refresh i st (e :: rest) =
          { st with interrupted := true, out := st.out ++ [interruptedMarker] } := by
        simp [streamLoop, hp]
      rw [hstep]
      exact h
    · cases e with
      | textDelta s =>
        by_cases hr : refresh i = true
        · have hstep : streamLoop cols L0.length pending refresh i st
              (StreamEvent.textDelta s :: rest) =
            streamLoop cols L0.length pending refresh (i + 1)
              { lines := addBlock cols (st.lines.take L0.length) aiPrefix
                           (st.out.flatten ++ s),
                out := st.out ++ [s],
                interrupted := st.interrupted,
                finalResult := st.finalResult,
                status := "Streaming… (ESC to stop)".data,
                history := st.history,
                responseText := st.responseText } rest := by
            simp [streamLoop, hp, hr]
          rw [hstep]
          refine ih (i + 1) _ ?_
          rw [h]
          simp only [addBlock, List.append_assoc, List.take_left]
        · have hstep : streamLoop cols L0.length pending refresh i st
              (StreamEvent.textDelta s :: rest) =
            streamLoop cols L0.length pending refresh (i + 1)
              { lines := st.lines,
                out := st.out ++ [s],
                interrupted := st.interrupted,
                finalResult := st.finalResult,
                status := st.status,
                history := st.history,
                responseText := st.responseText } rest := by
            simp [streamLoop, hp, hr]
          rw [hstep]
          exact ih (i + 1) _ h
      | completed r =>
        have hstep : streamLoop cols L0.length pending refresh i st
            (StreamEvent.completed r :: rest) =
          streamLoop cols L0.length pending refresh (i + 1)
            { lines := st.lines,
              out := st.out,
              interrupted := st.interrupted,
              finalResult := some r,
              status := st.status,
              history := st.history,
              responseText := st.responseText } rest := by
          simp [streamLoop, hp]
        rw [hstep]
        exact ih (i + 1) _ h

/-- C10: transcript lines present before the stream started (indices below
    the recorded block start) are never modified or removed by do_stream:
    the prior transcript is a prefix of the transcript after the exchange,
    every in-progress and final replace-in-place rewriting only lines at or
    after the block start. -/
theorem stream_preserves_prior_lines (cols cap : Nat)
    (pending : Nat → Option Nat) (refresh : Nat → Bool) (elapsedMs : Nat)
    (userMsg : Str) (st0 : StreamSt) (events : List StreamEvent) :
    st0.lines <+:
      (doStream cols cap pending refresh elapsedMs userMsg st0 events).lines := by
  have htake := streamLoop_preserves_take cols pending refresh st0.lines events 0
    { st0 with status := "Thinking…".data,
               history := addToHistory st0.history "user".data userMsg cap,
               out := [], interrupted := false, finalResult := none }
    (by simp)
  simp only [doStream]
  rw [htake]
  cases hf : (streamLoop cols st0.lines.length pending refresh 0
      { st0 with status := "Thinking…".data,
                 history := addToHistory st0.history "user".data userMsg cap,
                 out := [], interrupted := false,
                 finalResult := none } events).finalResult with
  | none =>
    simp only [addBlock, List.append_assoc]
    exact List.prefix_append _ _
  | some r =>
    by_cases hc : r.citations.isEmpty
    · simp only [hc, if_true, addBlock, List.append_assoc]
      exact List.prefix_append _ _
    · simp only [hc, if_false, addBlock, List.append_assoc]
      exact List.prefix_append _ _
